import Mathlib

/-!
Verification of the bounded recency message cache implemented in
`app/(tabs)/index.tsx`.

The embedding models the screen-level logic of `MessageCacheApp`:

* `Message` / `MessageCache` mirror `types/message` (`id : String`,
  `text : String`, `timestamp : Nat` milliseconds since epoch).
* `addMessage` mirrors the `addMessage` handler: it rejects input whose
  trimmed form is empty (showing an alert and leaving state untouched),
  otherwise builds a message with `id = Date.now().toString()` and
  `timestamp = Date.now()` (both calls modelled by the single
  parameter `now`), prepends it, truncates with `slice(0, MAX_MESSAGES)`
  (= `List.take`), and passes the updated list to storage.
* `saveMessagesToStorage` mirrors the try/catch around
  `AsyncStorage.setItem`: a failing write is caught and logged, and no
  error escapes to the caller.
* `loadMessagesFromStorage` mirrors the try/catch around
  `AsyncStorage.getItem` plus `JSON.parse`: an absent key, an empty
  string (falsy) or an unparseable string all leave the initial state
  `[]`; a string that parses is installed verbatim, with no schema
  validation and no truncation.
* `JSON.stringify` / `JSON.parse` are modelled character-exactly by
  `jsonStringifyCache` / `jsonParse` below (compact output, JS escape
  rules for strings, JSON number grammar, whitespace-tolerant parsing).
-/

namespace MessageCacheApp

/-- `Message` record from `types/message`. -/
structure Message where
  id : String
  text : String
  timestamp : Nat
deriving DecidableEq, Repr

/-- `MessageCache` is an ordered sequence of messages, newest first. -/
abbrev MessageCache := List Message

/-- `const MAX_MESSAGES = 5`. -/
def MAX_MESSAGES : Nat := 5

/-- `const MESSAGES_STORAGE_KEY = 'cached_messages'`. -/
def MESSAGES_STORAGE_KEY : String := "cached_messages"

/-! ### Decimal printing of `Nat`, modelling `Date.now().toString()`
and the digits `JSON.stringify` emits for an integer timestamp. -/

/-- Digit character for `d < 10`, i.e. `Char.ofNat (48 + d)`. -/
def digitChar (d : Nat) : Char := Char.ofNat (48 + d)

/-- Big-endian decimal digits of `n`, empty for `n = 0`; fuel-based so
that it is structural recursion (the kernel can evaluate it). -/
def natToCharsAux (fuel : Nat) (n : Nat) : List Char :=
  match fuel with
  | 0 => []
  | f + 1 => if n = 0 then [] else natToCharsAux f (n / 10) ++ [digitChar (n % 10)]

/-- Decimal representation of `n`, as JavaScript prints a non-negative
integer (`(5).toString() = "5"`, `(0).toString() = "0"`). -/
def natToChars (n : Nat) : List Char :=
  if n = 0 then ['0'] else natToCharsAux (n + 1) n

/-- `Date.now().toString()` for `Date.now() = n`. -/
def natToString (n : Nat) : String := String.mk (natToChars n)

/-! ### `String.prototype.trim`. -/

/-- The characters `String.prototype.trim` removes: ECMAScript
WhiteSpace and LineTerminator code points. -/
def isJsWhitespace (c : Char) : Bool :=
  (0x9 ≤ c.toNat && c.toNat ≤ 0xD) || c.toNat = 0x20 || c.toNat = 0xA0 ||
  c.toNat = 0x1680 || (0x2000 ≤ c.toNat && c.toNat ≤ 0x200A) ||
  c.toNat = 0x2028 || c.toNat = 0x2029 || c.toNat = 0x202F ||
  c.toNat = 0x205F || c.toNat = 0x3000 || c.toNat = 0xFEFF

/-- `s.trim()`: strip leading and trailing whitespace. -/
def jsTrim (s : String) : String :=
  String.mk (((s.data.dropWhile isJsWhitespace).reverse.dropWhile isJsWhitespace).reverse)

/-! ### The `addMessage` handler. -/

/-- Observable outcome of one run of the `addMessage` handler:
the `messages` state afterwards, whether `Alert.alert` fired, and the
argument passed to `saveMessagesToStorage` (`none` when the handler
returned before saving). -/
structure AddResult where
  messages : MessageCache
  alertShown : Bool
  savedToStorage : Option MessageCache
deriving DecidableEq, Repr

/-- The `addMessage` handler from `app/(tabs)/index.tsx`:

```
if (!newMessage.trim()) { Alert.alert('Error', 'Please enter a message'); return; }
const message = { id: Date.now().toString(), text: newMessage.trim(), timestamp: Date.now() };
const updatedMessages = [message, ...messages].slice(0, MAX_MESSAGES);
setMessages(updatedMessages);
await saveMessagesToStorage(updatedMessages);
```

Both `Date.now()` calls are modelled by the parameter `now`. -/
def addMessage (messages : MessageCache) (newMessage : String) (now : Nat) : AddResult :=
  if jsTrim newMessage = "" then
    { messages := messages, alertShown := true, savedToStorage := none }
  else
    let message : Message :=
      { id := natToString now, text := jsTrim newMessage, timestamp := now }
    let updatedMessages := (message :: messages).take MAX_MESSAGES
    { messages := updatedMessages, alertShown := false,
      savedToStorage := some updatedMessages }

/-- A sequence of user actions: each element is the typed text together
with the `Date.now()` value at that action. -/
abbrev InsertInput := String × Nat

/-- Run a sequence of `addMessage` actions starting from cache `c`. -/
def runInsertsFrom (c : MessageCache) (inputs : List InsertInput) : MessageCache :=
  inputs.foldl (fun cache p => (addMessage cache p.1 p.2).messages) c

/-- Run a sequence of `addMessage` actions starting from the initial
state `useState<MessageCache>([])`. -/
def runInserts (inputs : List InsertInput) : MessageCache :=
  runInsertsFrom [] inputs

/-- An insertion is valid when the code's guard `!newMessage.trim()`
does not fire. -/
def validInput (p : InsertInput) : Bool := !(jsTrim p.1 == "")

/-- Number of valid insertions in a sequence of actions. -/
def countValid (inputs : List InsertInput) : Nat :=
  (inputs.filter validInput).length

/-! ### JSON values.

`JSON.parse` returns an arbitrary JavaScript value; the code installs it
as the `messages` state without any validation, so the in-memory state
after a load is modelled as a `Json` value.  Numbers are kept in the
syntactic form `mantissa * 10 ^ exp10` (`num mantissa exp10`), which is
exact for every JSON numeral; the repository only ever serializes
integer timestamps, for which `exp10 = 0`. -/
inductive Json where
  | null : Json
  | bool : Bool → Json
  | num : Int → Int → Json
  | str : String → Json
  | arr : List Json → Json
  | obj : List (String × Json) → Json
deriving Repr

/-! ### `JSON.stringify`, character-exact on the values the app writes. -/

/-- Lower-case hexadecimal digit character for `d < 16`, as emitted by
`JSON.stringify` in `\u00XX` escapes. -/
def hexDigitChar (d : Nat) : Char :=
  Char.ofNat (if d < 10 then 48 + d else 87 + d)

/-- JS string-escaping of one character, exactly as `JSON.stringify`
emits it: the two mandatory escapes `\"` and `\\`, the short control
escapes `\b \t \n \f \r`, `\u00XX` for the remaining control
characters, and every other character verbatim. -/
def escapeChar (c : Char) : List Char :=
  if c = '"' then ['\\', '"']
  else if c = '\\' then ['\\', '\\']
  else if c = '\n' then ['\\', 'n']
  else if c = '\r' then ['\\', 'r']
  else if c = '\t' then ['\\', 't']
  else if c = '\x08' then ['\\', 'b']
  else if c = '\x0c' then ['\\', 'f']
  else if c.toNat < 0x20 then
    ['\\', 'u', '0', '0', hexDigitChar (c.toNat / 16), hexDigitChar (c.toNat % 16)]
  else [c]

/-- Escape a whole character list. -/
def escapeList : List Char → List Char
  | [] => []
  | c :: cs => escapeChar c ++ escapeList cs

/-- `JSON.stringify` of a string value, including the surrounding
quotes. -/
def stringifyString (s : String) : List Char :=
  '"' :: escapeList s.data ++ ['"']

/-- `JSON.stringify` of one `Message` object.  JavaScript preserves the
property-insertion order of the object literal in `addMessage`, so the
keys appear as `id`, `text`, `timestamp`. -/
def stringifyMessage (m : Message) : List Char :=
  "\x7b\"id\":".data ++ (stringifyString m.id ++
    (",\"text\":".data ++ (stringifyString m.text ++
      (",\"timestamp\":".data ++ (natToChars m.timestamp ++ ['}'])))))

/-- Comma-join of serialized array elements. -/
def sepComma : List (List Char) → List Char
  | [] => []
  | [x] => x
  | x :: xs => x ++ ',' :: sepComma xs

/-- `JSON.stringify(messagesToSave)`: the compact array form. -/
def stringifyCache (c : MessageCache) : List Char :=
  '[' :: sepComma (c.map stringifyMessage) ++ [']']

/-- `JSON.stringify(messagesToSave)` as a `String`. -/
def jsonStringifyCache (c : MessageCache) : String :=
  String.mk (stringifyCache c)

/-- The `Json` value a serialized `Message` denotes. -/
def encodeMessage (m : Message) : Json :=
  Json.obj [("id", Json.str m.id), ("text", Json.str m.text),
            ("timestamp", Json.num (Int.ofNat m.timestamp) 0)]

/-- The `Json` value a serialized `MessageCache` denotes. -/
def encodeCache (c : MessageCache) : Json :=
  Json.arr (c.map encodeMessage)

/-! ### `JSON.parse`.

A character-level recursive-descent parser for JSON, following the
grammar `JSON.parse` accepts: optional whitespace (space, tab, newline,
carriage return) around tokens, the literals `null`/`true`/`false`,
double-quoted strings with the JS escape set and `\uXXXX` (surrogate
pairs combined; a lone surrogate is rejected, since a Lean `Char` is a
Unicode scalar value and cannot hold one), numbers with optional sign,
fraction and exponent and no leading zeros, arrays and objects.  The
recursion is fuel-indexed so that it is structural and the kernel can
evaluate it; `jsonParse` supplies one unit of fuel per input character,
which is more than any parse can consume. -/

/-- JSON insignificant whitespace. -/
def isWs (c : Char) : Bool :=
  c == ' ' || c == '\t' || c == '\n' || c == '\r'

/-- Skip leading insignificant whitespace. -/
def skipWs : List Char → List Char
  | [] => []
  | c :: cs => if isWs c then skipWs cs else c :: cs

/-- Match an exact literal continuation (used for `null`, `true`,
`false`). -/
def dropLit : List Char → List Char → Option (List Char)
  | [], input => some input
  | l :: ls, c :: cs => if c = l then dropLit ls cs else none
  | _ :: _, [] => none

/-- Value of one hexadecimal digit. -/
def parseHex (c : Char) : Option Nat :=
  if c.isDigit then some (c.toNat - 48)
  else if 'a' ≤ c ∧ c ≤ 'f' then some (c.toNat - 87)
  else if 'A' ≤ c ∧ c ≤ 'F' then some (c.toNat - 55)
  else none

/-- Four hexadecimal digits, as in a `\uXXXX` escape. -/
def parseHex4 : List Char → Option (Nat × List Char)
  | a :: b :: c :: d :: r =>
    match parseHex a, parseHex b, parseHex c, parseHex d with
    | some x, some y, some z, some w => some (((x * 16 + y) * 16 + z) * 16 + w, r)
    | _, _, _, _ => none
  | _ => none

/-- Decode a single-character escape after a backslash. -/
def escDecode (e : Char) : Option Char :=
  if e = '"' then some '"'
  else if e = '\\' then some '\\'
  else if e = '/' then some '/'
  else if e = 'b' then some '\x08'
  else if e = 'f' then some '\x0c'
  else if e = 'n' then some '\n'
  else if e = 'r' then some '\r'
  else if e = 't' then some '\t'
  else none

/-- Parse the body of a JSON string after the opening quote, returning
the decoded characters and the input past the closing quote. -/
def parseStringBody : Nat → List Char → Option (List Char × List Char)
  | 0, _ => none
  | _ + 1, [] => none
  | f + 1, c :: cs =>
    if c = '"' then some ([], cs)
    else if c = '\\' then
      match cs with
      | [] => none
      | e :: cs1 =>
        if e = 'u' then
          match parseHex4 cs1 with
          | none => none
          | some (n, cs2) =>
            if n < 0xD800 ∨ 0xDFFF < n then
              (parseStringBody f cs2).map (fun p => (Char.ofNat n :: p.1, p.2))
            else if n < 0xDC00 then
              match cs2 with
              | b1 :: b2 :: cs3 =>
                if b1 = '\\' ∧ b2 = 'u' then
                  match parseHex4 cs3 with
                  | some (n2, cs4) =>
                    if 0xDC00 ≤ n2 ∧ n2 ≤ 0xDFFF then
                      (parseStringBody f cs4).map (fun p =>
                        (Char.ofNat (0x10000 + (n - 0xD800) * 0x400 + (n2 - 0xDC00)) :: p.1, p.2))
                    else none
                  | none => none
                else none
              | _ => none
            else none
        else
          match escDecode e with
          | some d => (parseStringBody f cs1).map (fun p => (d :: p.1, p.2))
          | none => none
    else if c.toNat < 0x20 then none
    else (parseStringBody f cs).map (fun p => (c :: p.1, p.2))

/-- Parse a JSON string body with always-sufficient fuel (each step of
`parseStringBody` consumes at least one input character). -/
def parseJString (cs : List Char) : Option (List Char × List Char) :=
  parseStringBody (cs.length + 1) cs

/-- Longest prefix of decimal digits. -/
def takeDigits : List Char → List Char × List Char
  | [] => ([], [])
  | c :: cs =>
    if c.isDigit then
      let p := takeDigits cs
      (c :: p.1, p.2)
    else ([], c :: cs)

/-- Numeric value of a big-endian list of decimal digit characters. -/
def valChars (l : List Char) : Nat :=
  l.foldl (fun a c => 10 * a + (c.toNat - 48)) 0

/-- Optional fraction part `.digits`; returns the fraction digits
(empty when absent). -/
def parseFracPart (input : List Char) : Option (List Char × List Char) :=
  match input with
  | [] => some ([], [])
  | c :: cs =>
    if c = '.' then
      let p := takeDigits cs
      if p.1 = [] then none else some p
    else some ([], input)

/-- Optional exponent part `(e|E)(+|-)?digits`; returns the exponent
value (`0` when absent). -/
def parseExpPart (input : List Char) : Option (Int × List Char) :=
  match input with
  | [] => some (0, [])
  | c :: cs =>
    if c = 'e' ∨ c = 'E' then
      let sgncs : Int × List Char :=
        match cs with
        | d :: ds => if d = '+' then (1, ds) else if d = '-' then (-1, ds) else (1, cs)
        | [] => (1, [])
      let p := takeDigits sgncs.2
      if p.1 = [] then none else some (sgncs.1 * Int.ofNat (valChars p.1), p.2)
    else some (0, input)

/-- Parse the digits of a JSON number after the optional minus sign. -/
def parseNumAfterSign (neg : Bool) (input : List Char) : Option (Json × List Char) :=
  let ip := takeDigits input
  if ip.1 = [] then none
  else if ip.1.head? = some '0' ∧ ip.1.length ≠ 1 then none
  else
    match parseFracPart ip.2 with
    | none => none
    | some (fds, r2) =>
      match parseExpPart r2 with
      | none => none
      | some (e, r3) =>
        let mant : Int := Int.ofNat (valChars ip.1 * 10 ^ fds.length + valChars fds)
        some (Json.num (if neg then -mant else mant) (e - Int.ofNat fds.length), r3)

/-- Parse a JSON number token. -/
def parseNumber (input : List Char) : Option (Json × List Char) :=
  match input with
  | [] => none
  | c :: cs =>
    if c = '-' then parseNumAfterSign true cs
    else if c.isDigit then parseNumAfterSign false (c :: cs)
    else none

/-- A continuation on which a number token unambiguously stops: the
input is exhausted or the next character extends neither the digits nor
a fraction nor an exponent. -/
def numBoundary (r : List Char) : Prop :=
  match r with
  | [] => True
  | c :: _ => c.isDigit = false ∧ c ≠ '.' ∧ c ≠ 'e' ∧ c ≠ 'E'

/-- Which production the fuel-indexed parser is working on. -/
inductive PMode where
  | val : PMode
  | arrItems : PMode
  | objItems : PMode
deriving DecidableEq, Repr

/-- Partial results of the fuel-indexed parser, one constructor per
`PMode`. -/
inductive PRes where
  | val : Json → PRes
  | items : List Json → PRes
  | fields : List (String × Json) → PRes

/-- The JSON parser core.  `PMode.val` parses one value (with leading
whitespace); `PMode.arrItems` parses the comma-separated items of a
non-empty array up to and including `]`; `PMode.objItems` likewise for a
non-empty object up to and including `}`. -/
def parseF : Nat → PMode → List Char → Option (PRes × List Char)
  | 0, _, _ => none
  | f + 1, PMode.val, input =>
    match skipWs input with
    | [] => none
    | c :: cs =>
      if c = 'n' then (dropLit ['u', 'l', 'l'] cs).map (fun r => (PRes.val Json.null, r))
      else if c = 't' then (dropLit ['r', 'u', 'e'] cs).map (fun r => (PRes.val (Json.bool true), r))
      else if c = 'f' then (dropLit ['a', 'l', 's', 'e'] cs).map (fun r => (PRes.val (Json.bool false), r))
      else if c = '"' then
        (parseJString cs).map (fun p => (PRes.val (Json.str (String.mk p.1)), p.2))
      else if c = '[' then
        match skipWs cs with
        | d :: r =>
          if d = ']' then some (PRes.val (Json.arr []), r)
          else
            match parseF f PMode.arrItems (d :: r) with
            | some (PRes.items xs, rest) => some (PRes.val (Json.arr xs), rest)
            | _ => none
        | [] => none
      else if c = '{' then
        match skipWs cs with
        | d :: r =>
          if d = '}' then some (PRes.val (Json.obj []), r)
          else
            match parseF f PMode.objItems (d :: r) with
            | some (PRes.fields xs, rest) => some (PRes.val (Json.obj xs), rest)
            | _ => none
        | [] => none
      else (parseNumber (c :: cs)).map (fun p => (PRes.val p.1, p.2))
  | f + 1, PMode.arrItems, input =>
    match parseF f PMode.val input with
    | some (PRes.val v, rest) =>
      match skipWs rest with
      | d :: r =>
        if d = ',' then
          match parseF f PMode.arrItems r with
          | some (PRes.items xs, rest2) => some (PRes.items (v :: xs), rest2)
          | _ => none
        else if d = ']' then some (PRes.items [v], r)
        else none
      | [] => none
    | _ => none
  | f + 1, PMode.objItems, input =>
    match skipWs input with
    | c :: cs =>
      if c = '"' then
        match parseJString cs with
        | none => none
        | some (k, rest) =>
          match skipWs rest with
          | d :: r =>
            if d = ':' then
              match parseF f PMode.val r with
              | some (PRes.val v, rest2) =>
                match skipWs rest2 with
                | d2 :: r2 =>
                  if d2 = ',' then
                    match parseF f PMode.objItems r2 with
                    | some (PRes.fields xs, rest3) =>
                      some (PRes.fields ((String.mk k, v) :: xs), rest3)
                    | _ => none
                  else if d2 = '}' then some (PRes.fields [(String.mk k, v)], r2)
                  else none
                | [] => none
              | _ => none
            else none
          | [] => none
      else none
    | [] => none

/-- Parse one JSON value with the given fuel. -/
def parseValueF (f : Nat) (cs : List Char) : Option (Json × List Char) :=
  match parseF f PMode.val cs with
  | some (PRes.val v, rest) => some (v, rest)
  | _ => none

/-- `JSON.parse`: `some v` when the whole string is one JSON value
(possibly with surrounding whitespace), `none` when `JSON.parse`
throws. -/
def jsonParse (s : String) : Option Json :=
  match parseValueF (s.length + 1) s.data with
  | some (v, rest) => if skipWs rest = [] then some v else none
  | none => none

/-! ### The storage operations. -/

/-- `loadMessagesFromStorage`, modelled on the stored value
`AsyncStorage.getItem(MESSAGES_STORAGE_KEY)` returns (`none` for a
`null` result).  The initial state `useState<MessageCache>([])` is the
empty array; the code runs `JSON.parse` only when the stored string is
truthy (non-empty), installs the parsed value verbatim (the
`MessageCache` annotation is a cast, not a check), and the `catch`
swallows a parse failure, leaving the state at `[]`. -/
def loadMessagesFromStorage (storedMessages : Option String) : Json :=
  match storedMessages with
  | none => Json.arr []
  | some s =>
    if s = "" then Json.arr []
    else
      match jsonParse s with
      | some parsedMessages => parsedMessages
      | none => Json.arr []

/-- Whether the `AsyncStorage.setItem` call resolves or rejects. -/
inductive WriteOutcome where
  | success : WriteOutcome
  | failure : WriteOutcome
deriving DecidableEq, Repr

/-- Observable outcome of `saveMessagesToStorage`: the value written to
the store (`none` when the write failed), whether `console.error` ran,
and whether an error escaped to the caller (i.e. the returned promise
rejected). -/
structure SaveResult where
  written : Option String
  errorLogged : Bool
  raised : Bool
deriving DecidableEq, Repr

/-- `saveMessagesToStorage` from `app/(tabs)/index.tsx`:

```
try { await AsyncStorage.setItem(MESSAGES_STORAGE_KEY, JSON.stringify(messagesToSave)); }
catch (error) { console.error('Error saving messages:', error); }
```

The `catch` consumes a write failure, so the function never rejects. -/
def saveMessagesToStorage (messagesToSave : MessageCache) (outcome : WriteOutcome) : SaveResult :=
  match outcome with
  | WriteOutcome.success =>
    { written := some (jsonStringifyCache messagesToSave), errorLogged := false, raised := false }
  | WriteOutcome.failure =>
    { written := none, errorLogged := true, raised := false }

/-- One full run of the `addMessage` handler against a store whose
current content under `MESSAGES_STORAGE_KEY` is `store`: returns the
in-memory `messages` state and the store content afterwards.
`setMessages(updatedMessages)` runs before `saveMessagesToStorage`, and
a failed write leaves the store unchanged. -/
def addMessageFlow (messages : MessageCache) (newMessage : String) (now : Nat)
    (outcome : WriteOutcome) (store : Option String) : MessageCache × Option String :=
  let r := addMessage messages newMessage now
  match r.savedToStorage with
  | none => (r.messages, store)
  | some updated =>
    match (saveMessagesToStorage updated outcome).written with
    | some v => (r.messages, some v)
    | none => (r.messages, store)

/-! ## Basic facts about `addMessage`. -/

theorem addMessage_invalid (cache : MessageCache) (t : String) (now : Nat)
    (h : jsTrim t = "") :
    addMessage cache t now =
      { messages := cache, alertShown := true, savedToStorage := none } := by
  simp [addMessage, h]

theorem addMessage_valid (cache : MessageCache) (t : String) (now : Nat)
    (h : jsTrim t ≠ "") :
    addMessage cache t now =
      { messages := ⟨natToString now, jsTrim t, now⟩ :: cache.take (MAX_MESSAGES - 1),
        alertShown := false,
        savedToStorage :=
          some (⟨natToString now, jsTrim t, now⟩ :: cache.take (MAX_MESSAGES - 1)) } := by
  simp only [addMessage, if_neg h, MAX_MESSAGES, List.take_succ_cons]

theorem runInsertsFrom_cons (c : MessageCache) (p : InsertInput) (rest : List InsertInput) :
    runInsertsFrom c (p :: rest) = runInsertsFrom (addMessage c p.1 p.2).messages rest := rfl

theorem countValid_cons_valid (p : InsertInput) (rest : List InsertInput)
    (h : jsTrim p.1 ≠ "") : countValid (p :: rest) = countValid rest + 1 := by
  simp [countValid, List.filter_cons, validInput, h]

theorem countValid_cons_invalid (p : InsertInput) (rest : List InsertInput)
    (h : jsTrim p.1 = "") : countValid (p :: rest) = countValid rest := by
  simp [countValid, List.filter_cons, validInput, h]

theorem addMessage_valid_length (cache : MessageCache) (t : String) (now : Nat)
    (h : jsTrim t ≠ "") :
    ((addMessage cache t now).messages).length = min MAX_MESSAGES (cache.length + 1) := by
  rw [addMessage_valid cache t now h]
  simp [MAX_MESSAGES, List.length_take]
  omega

theorem runInsertsFrom_length (inputs : List InsertInput) :
    ∀ c : MessageCache, c.length ≤ MAX_MESSAGES →
      (runInsertsFrom c inputs).length = min MAX_MESSAGES (c.length + countValid inputs) := by
  induction inputs with
  | nil =>
    intro c hc
    simp only [runInsertsFrom, List.foldl_nil, countValid, List.filter_nil, List.length_nil]
    simp [MAX_MESSAGES] at hc ⊢
    omega
  | cons p rest ih =>
    intro c hc
    rw [runInsertsFrom_cons]
    by_cases hv : jsTrim p.1 = ""
    · rw [addMessage_invalid c p.1 p.2 hv, countValid_cons_invalid p rest hv]
      exact ih c hc
    · rw [countValid_cons_valid p rest hv]
      have hlen := addMessage_valid_length c p.1 p.2 hv
      have hle : ((addMessage c p.1 p.2).messages).length ≤ MAX_MESSAGES := by
        rw [hlen]; omega
      rw [ih _ hle, hlen]
      simp [MAX_MESSAGES] at hc ⊢
      omega

/-- C1: for every sequence of insert actions starting from the empty
cache, the final cache length equals `min (MAX_MESSAGES, number of
valid insertions)`; and one valid insert on a cache of length `n`
yields a cache of length `min (MAX_MESSAGES, n + 1)`. -/
theorem claim_C1_cache_length :
    (∀ inputs : List InsertInput,
        (runInserts inputs).length = min MAX_MESSAGES (countValid inputs)) ∧
    (∀ (cache : MessageCache) (t : String) (now : Nat), jsTrim t ≠ "" →
        ((addMessage cache t now).messages).length = min MAX_MESSAGES (cache.length + 1)) := by
  constructor
  · intro inputs
    have := runInsertsFrom_length inputs [] (by simp [MAX_MESSAGES])
    simpa [runInserts] using this
  · exact addMessage_valid_length

theorem claim_C1_cache_length_witness :
    (runInserts [("a", 1), ("  ", 2), ("b", 3)]).length =
        min MAX_MESSAGES (countValid [("a", 1), ("  ", 2), ("b", 3)]) ∧
    (jsTrim "hi" ≠ "" ∧
      ((addMessage [⟨"1", "a", 1⟩] "hi" 7).messages).length = min MAX_MESSAGES (1 + 1)) :=
  ⟨claim_C1_cache_length.1 [("a", 1), ("  ", 2), ("b", 3)],
   by decide,
   claim_C1_cache_length.2 [⟨"1", "a", 1⟩] "hi" 7 (by decide)⟩

/-- C2: a valid insert places the newly constructed message at index 0,
and inserting six distinct messages in order into the empty cache
leaves exactly the last five, newest first, with the first message
evicted. -/
theorem claim_C2_newest_first :
    (∀ (cache : MessageCache) (t : String) (now : Nat), jsTrim t ≠ "" →
        ((addMessage cache t now).messages).head? =
          some ⟨natToString now, jsTrim t, now⟩) ∧
    runInserts [("M1", 1), ("M2", 2), ("M3", 3), ("M4", 4), ("M5", 5), ("M6", 6)] =
      [⟨"6", "M6", 6⟩, ⟨"5", "M5", 5⟩, ⟨"4", "M4", 4⟩, ⟨"3", "M3", 3⟩, ⟨"2", "M2", 2⟩] ∧
    (∀ m ∈ runInserts [("M1", 1), ("M2", 2), ("M3", 3), ("M4", 4), ("M5", 5), ("M6", 6)],
        m.text ≠ "M1") := by
  refine ⟨?_, by decide, by decide⟩
  intro cache t now h
  rw [addMessage_valid cache t now h]
  rfl

theorem claim_C2_newest_first_witness :
    jsTrim " hi " ≠ "" ∧
    ((addMessage [⟨"1", "a", 1⟩] " hi " 9).messages).head? =
      some ⟨natToString 9, jsTrim " hi ", 9⟩ :=
  ⟨by decide, claim_C2_newest_first.1 [⟨"1", "a", 1⟩] " hi " 9 (by decide)⟩

/-- C4: input whose trimmed form is empty is rejected before any
mutation: the cache is returned unchanged, no message is constructed,
nothing is written to storage, and the validation alert fires. -/
theorem claim_C4_empty_input_noop :
    ∀ (cache : MessageCache) (t : String) (now : Nat), jsTrim t = "" →
      addMessage cache t now =
        { messages := cache, alertShown := true, savedToStorage := none } :=
  addMessage_invalid

theorem claim_C4_empty_input_noop_witness :
    jsTrim " \t\n " = "" ∧
    addMessage [⟨"1", "a", 1⟩] " \t\n " 9 =
      { messages := [⟨"1", "a", 1⟩], alertShown := true, savedToStorage := none } :=
  ⟨by decide, claim_C4_empty_input_noop [⟨"1", "a", 1⟩] " \t\n " 9 (by decide)⟩

/-- C6 counterexample: the claim says a failing store write is
propagated to the caller of `saveMessagesToStorage`; in the code the
`catch` block consumes the rejection, so with a failing write on the
empty cache no error is raised to the caller. -/
theorem claim_C6_counterexample :
    (saveMessagesToStorage [] WriteOutcome.failure).raised = false := rfl

/-- C6 (amended): when the store write fails, `saveMessagesToStorage`
catches the failure and logs it; nothing is written, and the failure is
not propagated to the caller (and not retried). -/
theorem claim_C6_write_failure_swallowed :
    ∀ messagesToSave : MessageCache,
      saveMessagesToStorage messagesToSave WriteOutcome.failure =
        { written := none, errorLogged := true, raised := false } :=
  fun _ => rfl

/-- C7: when the store write fails after a valid insert, the in-memory
cache keeps the updated value (new message at the front, not rolled
back) while the store keeps its previous content, so the two diverge
until a later successful write. -/
theorem claim_C7_memory_retained_on_write_failure :
    ∀ (cache : MessageCache) (t : String) (now : Nat) (store : Option String),
      jsTrim t ≠ "" →
      (addMessageFlow cache t now WriteOutcome.failure store).1 =
          ⟨natToString now, jsTrim t, now⟩ :: cache.take (MAX_MESSAGES - 1) ∧
      (addMessageFlow cache t now WriteOutcome.failure store).2 = store := by
  intro cache t now store h
  rw [addMessageFlow, addMessage_valid cache t now h]
  exact ⟨rfl, rfl⟩

theorem claim_C7_memory_retained_on_write_failure_witness :
    jsTrim "hello" ≠ "" ∧
    (addMessageFlow [⟨"1", "a", 1⟩] "hello" 9 WriteOutcome.failure (some "[]")).1 =
        ⟨natToString 9, jsTrim "hello", 9⟩ :: [⟨"1", "a", 1⟩].take (MAX_MESSAGES - 1) ∧
    (addMessageFlow [⟨"1", "a", 1⟩] "hello" 9 WriteOutcome.failure (some "[]")).2 =
        some "[]" :=
  ⟨by decide,
   (claim_C7_memory_retained_on_write_failure [⟨"1", "a", 1⟩] "hello" 9 (some "[]")
      (by decide)).1,
   (claim_C7_memory_retained_on_write_failure [⟨"1", "a", 1⟩] "hello" 9 (some "[]")
      (by decide)).2⟩

/-- C10: a valid insert preserves the retained prefix of the previous
cache exactly: the result is the new message followed by the first
`MAX_MESSAGES - 1` previous messages, unchanged and in order, so each
retained previous message moves from index `i` to index `i + 1` and
eviction only drops elements from the tail. -/
theorem claim_C10_frame :
    ∀ (cache : MessageCache) (t : String) (now : Nat), jsTrim t ≠ "" →
      (addMessage cache t now).messages =
          ⟨natToString now, jsTrim t, now⟩ :: cache.take (MAX_MESSAGES - 1) ∧
      ∀ i : Nat, i < MAX_MESSAGES - 1 →
        ((addMessage cache t now).messages)[i + 1]? = cache[i]? := by
  intro cache t now h
  rw [addMessage_valid cache t now h]
  refine ⟨rfl, ?_⟩
  intro i hi
  simp only [List.getElem?_cons_succ]
  exact List.getElem?_take_of_lt (by simpa [MAX_MESSAGES] using hi)

theorem claim_C10_frame_witness :
    jsTrim "x" ≠ "" ∧
    (addMessage [⟨"1", "a", 1⟩, ⟨"2", "b", 2⟩] "x" 9).messages =
        ⟨natToString 9, jsTrim "x", 9⟩ ::
          [⟨"1", "a", 1⟩, ⟨"2", "b", 2⟩].take (MAX_MESSAGES - 1) ∧
    ((addMessage [⟨"1", "a", 1⟩, ⟨"2", "b", 2⟩] "x" 9).messages)[1]? =
        [⟨"1", "a", 1⟩, ⟨"2", "b", 2⟩][0]? :=
  ⟨by decide,
   (claim_C10_frame [⟨"1", "a", 1⟩, ⟨"2", "b", 2⟩] "x" 9 (by decide)).1,
   (claim_C10_frame [⟨"1", "a", 1⟩, ⟨"2", "b", 2⟩] "x" 9 (by decide)).2 0 (by decide)⟩

/-! ## Decimal digits: printing and re-reading. -/

theorem digitChar_toNat (d : Nat) (h : d < 10) : (digitChar d).toNat = 48 + d := by
  interval_cases d <;> decide

theorem digitChar_isDigit (d : Nat) (h : d < 10) : (digitChar d).isDigit = true := by
  interval_cases d <;> decide

theorem digitChar_eq_zero_iff (d : Nat) (h : d < 10) : digitChar d = '0' ↔ d = 0 := by
  interval_cases d <;> decide

theorem natToCharsAux_zero (fuel : Nat) : natToCharsAux fuel 0 = [] := by
  cases fuel <;> simp [natToCharsAux]

theorem foldl_natToCharsAux (fuel : Nat) :
    ∀ n a : Nat, n ≤ fuel →
      List.foldl (fun x c => 10 * x + (c.toNat - 48)) a (natToCharsAux fuel n) =
        a * 10 ^ (natToCharsAux fuel n).length + n := by
  induction fuel with
  | zero =>
    intro n a hn
    interval_cases n
    simp [natToCharsAux]
  | succ f ih =>
    intro n a hn
    by_cases h0 : n = 0
    · subst h0; simp [natToCharsAux]
    · have hdiv : n / 10 ≤ f := by
        have : n / 10 < n := Nat.div_lt_self (Nat.pos_of_ne_zero h0) (by omega)
        omega
      have hmod : n % 10 < 10 := Nat.mod_lt _ (by omega)
      simp only [natToCharsAux, if_neg h0, List.foldl_append, List.foldl_cons,
        List.foldl_nil, List.length_append, List.length_cons, List.length_nil]
      rw [ih (n / 10) a hdiv, digitChar_toNat (n % 10) hmod]
      have hnm := Nat.div_add_mod n 10
      have hpow : 10 ^ (0 + 1) = 10 := by norm_num
      rw [pow_succ]
      ring_nf
      omega

theorem valChars_natToChars (n : Nat) : valChars (natToChars n) = n := by
  by_cases h0 : n = 0
  · subst h0; decide
  · have := foldl_natToCharsAux (n + 1) n 0 (by omega)
    simp only [valChars, natToChars, if_neg h0]
    rw [this]
    omega

theorem natToChars_injective : Function.Injective natToChars := by
  intro a b h
  have := valChars_natToChars a
  rw [h, valChars_natToChars] at this
  omega

theorem natToString_injective : Function.Injective natToString := by
  intro a b h
  apply natToChars_injective
  have := congrArg String.data h
  simpa [natToString] using this

theorem natToCharsAux_all_digits (fuel : Nat) :
    ∀ n c, c ∈ natToCharsAux fuel n → c.isDigit = true := by
  induction fuel with
  | zero => intro n c hc; simp [natToCharsAux] at hc
  | succ f ih =>
    intro n c hc
    by_cases h0 : n = 0
    · subst h0; simp [natToCharsAux] at hc
    · simp only [natToCharsAux, if_neg h0, List.mem_append, List.mem_singleton] at hc
      rcases hc with hc | hc
      · exact ih _ _ hc
      · subst hc; exact digitChar_isDigit _ (Nat.mod_lt _ (by omega))

theorem natToChars_all_digits (n : Nat) : ∀ c ∈ natToChars n, c.isDigit = true := by
  intro c hc
  by_cases h0 : n = 0
  · subst h0; simp [natToChars] at hc; subst hc; decide
  · simp only [natToChars, if_neg h0] at hc
    exact natToCharsAux_all_digits _ _ _ hc

theorem natToCharsAux_head (fuel : Nat) :
    ∀ n, 0 < n → n ≤ fuel →
      natToCharsAux fuel n ≠ [] ∧ (natToCharsAux fuel n).head? ≠ some '0' := by
  induction fuel with
  | zero => intro n hn hle; omega
  | succ f ih =>
    intro n hn hle
    have h0 : ¬ n = 0 := by omega
    simp only [natToCharsAux, if_neg h0]
    by_cases hsmall : n < 10
    · have : n / 10 = 0 := Nat.div_eq_of_lt hsmall
      rw [this, natToCharsAux_zero]
      have : n % 10 = n := Nat.mod_eq_of_lt hsmall
      rw [this]
      refine ⟨by simp, ?_⟩
      simp only [List.nil_append, List.head?_cons, ne_eq, Option.some.injEq]
      intro hz
      exact absurd ((digitChar_eq_zero_iff n hsmall).1 hz) (by omega)
    · have hdivpos : 0 < n / 10 := Nat.div_pos (by omega) (by omega)
      have hdiv : n / 10 ≤ f := by
        have : n / 10 < n := Nat.div_lt_self hn (by omega)
        omega
      obtain ⟨hne, hhd⟩ := ih (n / 10) hdivpos hdiv
      obtain ⟨x, xs, hxs⟩ := List.exists_cons_of_ne_nil hne
      rw [hxs]
      rw [hxs] at hhd
      simp only [List.cons_append, List.head?_cons] at hhd ⊢
      exact ⟨by simp, hhd⟩

theorem natToChars_ne_nil (n : Nat) : natToChars n ≠ [] := by
  by_cases h0 : n = 0
  · subst h0; decide
  · simp only [natToChars, if_neg h0]
    exact (natToCharsAux_head (n + 1) n (by omega) (by omega)).1

theorem natToChars_length_pos (n : Nat) : 0 < (natToChars n).length :=
  List.length_pos.2 (natToChars_ne_nil n)

theorem natToChars_head_ne_zero (n : Nat) (hn : 0 < n) :
    (natToChars n).head? ≠ some '0' := by
  simp only [natToChars, if_neg (by omega : ¬ n = 0)]
  exact (natToCharsAux_head (n + 1) n hn (by omega)).2

/-! ## C8: id uniqueness. -/

/-- C8 counterexample: two valid inserts that happen in the same
millisecond (`Date.now()` returns 5 both times) produce two messages
with the same id `"5"`, so the ids in the resulting cache are not
pairwise distinct. -/
theorem claim_C8_counterexample :
    ¬ ((runInserts [("a", 5), ("b", 5)]).map Message.id).Nodup := by decide

theorem runInsertsFrom_ids_nodup (inputs : List InsertInput) :
    ∀ c : MessageCache,
      (inputs.map Prod.snd).Nodup →
      (c.map Message.id).Nodup →
      (∀ m ∈ c, ∀ p ∈ inputs, m.id ≠ natToString p.2) →
      ((runInsertsFrom c inputs).map Message.id).Nodup := by
  induction inputs with
  | nil => intro c _ hc _; exact hc
  | cons p rest ih =>
    intro c hsnd hc hfresh
    rw [runInsertsFrom_cons]
    simp only [List.map_cons, List.nodup_cons] at hsnd
    by_cases hv : jsTrim p.1 = ""
    · rw [addMessage_invalid c p.1 p.2 hv]
      exact ih c hsnd.2 hc fun m hm q hq => hfresh m hm q (List.mem_cons_of_mem p hq)
    · rw [addMessage_valid c p.1 p.2 hv]
      apply ih _ hsnd.2
      · simp only [List.map_cons, List.nodup_cons]
        constructor
        · intro hmem
          simp only [List.mem_map] at hmem
          obtain ⟨m, hm, hid⟩ := hmem
          exact hfresh m (List.mem_of_mem_take hm) p (List.mem_cons_self p rest) hid
        · exact hc.sublist ((List.take_sublist _ _).map Message.id)
      · intro m hm q hq
        rcases List.mem_cons.1 hm with hm | hm
        · subst hm
          simp only
          intro heq
          have := natToString_injective heq
          exact hsnd.1 (this ▸ List.mem_map_of_mem Prod.snd hq)
        · exact hfresh m (List.mem_of_mem_take hm) q (List.mem_cons_of_mem p hq)

/-- C8 (amended): the ids in any cache reachable by a sequence of
insert actions are pairwise distinct provided the `Date.now()` values
of those actions are pairwise distinct (the code derives the id from
`Date.now()`, so inserts in the same millisecond collide). -/
theorem claim_C8_ids_nodup :
    ∀ inputs : List InsertInput,
      (inputs.map Prod.snd).Nodup →
      ((runInserts inputs).map Message.id).Nodup := by
  intro inputs h
  exact runInsertsFrom_ids_nodup inputs [] h (by simp) (by simp)

theorem claim_C8_ids_nodup_witness :
    ([("a", 5), ("b", 6), ("c", 7)].map Prod.snd).Nodup ∧
    ((runInserts [("a", 5), ("b", 6), ("c", 7)]).map Message.id).Nodup :=
  ⟨by decide, claim_C8_ids_nodup [("a", 5), ("b", 6), ("c", 7)] (by decide)⟩

/-! ## Parsing lemmas: whitespace, digits, numbers. -/

theorem skipWs_cons_of_not_ws {c : Char} (l : List Char) (h : isWs c = false) :
    skipWs (c :: l) = c :: l := by
  simp [skipWs, h]

theorem isWs_eq_false_of_isDigit {c : Char} (h : c.isDigit = true) : isWs c = false := by
  rcases hw : isWs c with _ | _
  · rfl
  · exfalso
    simp only [isWs, Bool.or_eq_true, beq_iff_eq] at hw
    rcases hw with ((hw | hw) | hw) | hw <;> (subst hw; simp at h)

theorem ne_of_isDigit {c d : Char} (h : c.isDigit = true) (hd : d.isDigit = false) :
    c ≠ d := by
  intro he; subst he; rw [h] at hd; exact Bool.noConfusion hd

theorem takeDigits_append (l : List Char) :
    ∀ r : List Char, (∀ c ∈ l, c.isDigit = true) →
      (∀ c cs, r = c :: cs → c.isDigit = false) →
      takeDigits (l ++ r) = (l, r) := by
  induction l with
  | nil =>
    intro r _ hr
    cases r with
    | nil => rfl
    | cons c cs => simp [takeDigits, hr c cs rfl]
  | cons c l ih =>
    intro r hl hr
    have hc : c.isDigit = true := hl c (List.mem_cons_self c l)
    have hih := ih r (fun x hx => hl x (List.mem_cons_of_mem c hx)) hr
    simp only [List.cons_append, takeDigits, hc, if_true, List.append_eq, hih]

theorem parseNumAfterSign_natToChars (n : Nat) (r : List Char) (hr : numBoundary r) :
    parseNumAfterSign false (natToChars n ++ r) = some (Json.num (Int.ofNat n) 0, r) := by
  have hdig := natToChars_all_digits n
  have hrd : ∀ c cs, r = c :: cs → c.isDigit = false := by
    intro c cs hc
    subst hc
    exact hr.1
  have htd : takeDigits (natToChars n ++ r) = (natToChars n, r) :=
    takeDigits_append _ r hdig hrd
  have hzero : ¬ ((natToChars n).head? = some '0' ∧ (natToChars n).length ≠ 1) := by
    by_cases h0 : n = 0
    · subst h0; decide
    · intro ⟨hh, _⟩
      exact natToChars_head_ne_zero n (Nat.pos_of_ne_zero h0) hh
  have hfrac : parseFracPart r = some ([], r) := by
    cases r with
    | nil => rfl
    | cons c cs => simp [parseFracPart, hr.2.1]
  have hexp : parseExpPart r = some (0, r) := by
    cases r with
    | nil => rfl
    | cons c cs =>
      have : ¬ (c = 'e' ∨ c = 'E') := by
        intro h; rcases h with h | h
        · exact hr.2.2.1 h
        · exact hr.2.2.2 h
      simp [parseExpPart, this]
  simp only [parseNumAfterSign, htd, if_neg (by simpa using natToChars_ne_nil n),
    if_neg hzero, hfrac, hexp]
  have hv := valChars_natToChars n
  simp only [valChars] at hv
  simp [valChars, hv]

theorem parseNumber_natToChars (n : Nat) (r : List Char) (hr : numBoundary r) :
    parseNumber (natToChars n ++ r) = some (Json.num (Int.ofNat n) 0, r) := by
  obtain ⟨c, cs, hcs⟩ := List.exists_cons_of_ne_nil (natToChars_ne_nil n)
  have hc : c.isDigit = true := by
    apply natToChars_all_digits n
    rw [hcs]; exact List.mem_cons_self c cs
  have hmin : c ≠ '-' := ne_of_isDigit hc (by decide)
  rw [hcs, List.cons_append, parseNumber, if_neg hmin, if_pos hc, ← List.cons_append, ← hcs]
  exact parseNumAfterSign_natToChars n r hr

/-! ## String escaping round-trip. -/

theorem parseHex_hexDigitChar (d : Nat) (h : d < 16) :
    parseHex (hexDigitChar d) = some d := by
  interval_cases d <;> decide

theorem escapeChar_length_pos (c : Char) : 1 ≤ (escapeChar c).length := by
  unfold escapeChar
  repeat' split
  all_goals simp

theorem escapeList_length_ge (cs : List Char) : cs.length ≤ (escapeList cs).length := by
  induction cs with
  | nil => simp [escapeList]
  | cons c cs ih =>
    simp only [escapeList, List.length_append, List.length_cons]
    have := escapeChar_length_pos c
    omega

theorem parseStringBody_escape (cs : List Char) :
    ∀ (rest : List Char) (fuel : Nat), cs.length < fuel →
      parseStringBody fuel (escapeList cs ++ '"' :: rest) = some (cs, rest) := by
  induction cs with
  | nil =>
    intro rest fuel hf
    obtain ⟨f, rfl⟩ : ∃ f, fuel = f + 1 := ⟨fuel - 1, by omega⟩
    simp [escapeList, parseStringBody]
  | cons c cs ih =>
    intro rest fuel hf
    obtain ⟨f, rfl⟩ : ∃ f, fuel = f + 1 := ⟨fuel - 1, by omega⟩
    have hfc : cs.length < f := by
      simp only [List.length_cons] at hf
      omega
    have hih := ih rest f hfc
    by_cases h1 : c = '"'
    · subst h1
      simp [escapeList, escapeChar, parseStringBody, escDecode, hih]
    · by_cases h2 : c = '\\'
      · subst h2
        simp [escapeList, escapeChar, parseStringBody, escDecode, hih]
      · by_cases h3 : c = '\n'
        · subst h3
          simp [escapeList, escapeChar, parseStringBody, escDecode, hih]
        · by_cases h4 : c = '\r'
          · subst h4
            simp [escapeList, escapeChar, parseStringBody, escDecode, hih]
          · by_cases h5 : c = '\t'
            · subst h5
              simp [escapeList, escapeChar, parseStringBody, escDecode, hih]
            · by_cases h6 : c = '\x08'
              · subst h6
                simp [escapeList, escapeChar, parseStringBody, escDecode, hih]
              · by_cases h7 : c = '\x0c'
                · subst h7
                  simp [escapeList, escapeChar, parseStringBody, escDecode, hih]
                · by_cases h8 : c.toNat < 0x20
                  · have hd1 : parseHex (hexDigitChar (c.toNat / 16)) = some (c.toNat / 16) :=
                      parseHex_hexDigitChar _ (by omega)
                    have hd2 : parseHex (hexDigitChar (c.toNat % 16)) = some (c.toNat % 16) :=
                      parseHex_hexDigitChar _ (by omega)
                    have hval : ((0 * 16 + 0) * 16 + c.toNat / 16) * 16 + c.toNat % 16
                        = c.toNat := by omega
                    simp only [escapeList, escapeChar, if_neg h1, if_neg h2, if_neg h3,
                      if_neg h4, if_neg h5, if_neg h6, if_neg h7, if_pos h8,
                      List.cons_append, List.nil_append]
                    simp only [parseStringBody, if_neg (by decide : ¬ ('\\' : Char) = '"'),
                      if_pos rfl, if_pos rfl, parseHex4, hd1, hd2]
                    simp only [show parseHex '0' = some 0 from rfl]
                    rw [hval]
                    rw [if_pos (Or.inl (by omega : c.toNat < 0xD800))]
                    rw [hih]
                    simp [Char.ofNat_toNat]
                  · have hc1 : ¬ c = '"' := h1
                    simp only [escapeList, escapeChar, if_neg h1, if_neg h2, if_neg h3,
                      if_neg h4, if_neg h5, if_neg h6, if_neg h7, if_neg h8,
                      List.cons_append, List.nil_append]
                    simp only [parseStringBody, if_neg hc1, if_neg h2, if_neg h8]
                    rw [hih]
                    rfl

/-! ## Parsing one serialized value. -/

theorem stringifyString_append (s : String) (r : List Char) :
    stringifyString s ++ r = '"' :: (escapeList s.data ++ '"' :: r) := by
  simp [stringifyString]

theorem parseJString_escape (s : String) (r : List Char) :
    parseJString (escapeList s.data ++ '"' :: r) = some (s.data, r) := by
  apply parseStringBody_escape
  have := escapeList_length_ge s.data
  simp only [List.length_append, List.length_cons]
  omega

theorem parseF_val_string (g : Nat) (s : String) (r : List Char) :
    parseF (g + 1) PMode.val (stringifyString s ++ r) = some (PRes.val (Json.str s), r) := by
  rw [stringifyString_append]
  have hskip : skipWs ('"' :: (escapeList s.data ++ '"' :: r)) =
      '"' :: (escapeList s.data ++ '"' :: r) :=
    skipWs_cons_of_not_ws _ (by decide)
  have hmk : String.mk s.data = s := rfl
  simp [parseF, hskip, parseJString_escape, hmk]

theorem parseF_val_nat (g : Nat) (n : Nat) (r : List Char) (hr : numBoundary r) :
    parseF (g + 1) PMode.val (natToChars n ++ r) =
      some (PRes.val (Json.num (Int.ofNat n) 0), r) := by
  obtain ⟨c, cs, hcs⟩ := List.exists_cons_of_ne_nil (natToChars_ne_nil n)
  have hc : c.isDigit = true := by
    apply natToChars_all_digits n
    rw [hcs]; exact List.mem_cons_self c cs
  have hskip : skipWs (c :: (cs ++ r)) = c :: (cs ++ r) :=
    skipWs_cons_of_not_ws _ (isWs_eq_false_of_isDigit hc)
  have hn : c ≠ 'n' := ne_of_isDigit hc (by decide)
  have ht : c ≠ 't' := ne_of_isDigit hc (by decide)
  have hf : c ≠ 'f' := ne_of_isDigit hc (by decide)
  have hq : c ≠ '"' := ne_of_isDigit hc (by decide)
  have hb : c ≠ '[' := ne_of_isDigit hc (by decide)
  have hbr : c ≠ '{' := ne_of_isDigit hc (by decide)
  have hnum := parseNumber_natToChars n r hr
  rw [hcs, List.cons_append] at hnum ⊢
  simp [parseF, hskip, hn, ht, hf, hq, hb, hbr, hnum]

/-! ## Parsing one serialized message object. -/

theorem parseF_objItems_ts (u ts : Nat) (r : List Char) :
    parseF (u + 2) PMode.objItems
      ('"' :: 't' :: 'i' :: 'm' :: 'e' :: 's' :: 't' :: 'a' :: 'm' :: 'p' :: '"' :: ':' ::
        (natToChars ts ++ '}' :: r)) =
      some (PRes.fields [("timestamp", Json.num (Int.ofNat ts) 0)], r) := by
  have hkey : parseJString
      ('t' :: 'i' :: 'm' :: 'e' :: 's' :: 't' :: 'a' :: 'm' :: 'p' :: '"' :: ':' ::
        (natToChars ts ++ '}' :: r)) =
      some ("timestamp".data, ':' :: (natToChars ts ++ '}' :: r)) :=
    parseJString_escape "timestamp" (':' :: (natToChars ts ++ '}' :: r))
  have hval : parseF (u + 1) PMode.val (natToChars ts ++ '}' :: r) =
      some (PRes.val (Json.num (Int.ofNat ts) 0), '}' :: r) :=
    parseF_val_nat u ts ('}' :: r) ⟨by decide, by decide, by decide, by decide⟩
  have hskip1 : skipWs ('"' :: 't' :: 'i' :: 'm' :: 'e' :: 's' :: 't' :: 'a' :: 'm' :: 'p' ::
      '"' :: ':' :: (natToChars ts ++ '}' :: r)) =
      '"' :: 't' :: 'i' :: 'm' :: 'e' :: 's' :: 't' :: 'a' :: 'm' :: 'p' :: '"' :: ':' ::
        (natToChars ts ++ '}' :: r) :=
    skipWs_cons_of_not_ws _ (by decide)
  have hskip2 : skipWs (':' :: (natToChars ts ++ '}' :: r)) =
      ':' :: (natToChars ts ++ '}' :: r) :=
    skipWs_cons_of_not_ws _ (by decide)
  have hskip3 : skipWs ('}' :: r) = '}' :: r := skipWs_cons_of_not_ws _ (by decide)
  rw [parseF]
  simp [hskip1, hkey, hskip2, hval, hskip3]

theorem parseF_objItems_text_ts (u : Nat) (s : String) (ts : Nat) (r : List Char) :
    parseF (u + 3) PMode.objItems
      ('"' :: 't' :: 'e' :: 'x' :: 't' :: '"' :: ':' ::
        (stringifyString s ++
          (',' :: '"' :: 't' :: 'i' :: 'm' :: 'e' :: 's' :: 't' :: 'a' :: 'm' :: 'p' :: '"' ::
            ':' :: (natToChars ts ++ '}' :: r)))) =
      some (PRes.fields [("text", Json.str s), ("timestamp", Json.num (Int.ofNat ts) 0)], r) := by
  have hkey : parseJString
      ('t' :: 'e' :: 'x' :: 't' :: '"' :: ':' ::
        (stringifyString s ++
          (',' :: '"' :: 't' :: 'i' :: 'm' :: 'e' :: 's' :: 't' :: 'a' :: 'm' :: 'p' :: '"' ::
            ':' :: (natToChars ts ++ '}' :: r)))) =
      some ("text".data, ':' ::
        (stringifyString s ++
          (',' :: '"' :: 't' :: 'i' :: 'm' :: 'e' :: 's' :: 't' :: 'a' :: 'm' :: 'p' :: '"' ::
            ':' :: (natToChars ts ++ '}' :: r)))) :=
    parseJString_escape "text" _
  have hval : parseF (u + 2) PMode.val
      (stringifyString s ++
        (',' :: '"' :: 't' :: 'i' :: 'm' :: 'e' :: 's' :: 't' :: 'a' :: 'm' :: 'p' :: '"' ::
          ':' :: (natToChars ts ++ '}' :: r))) =
      some (PRes.val (Json.str s),
        ',' :: '"' :: 't' :: 'i' :: 'm' :: 'e' :: 's' :: 't' :: 'a' :: 'm' :: 'p' :: '"' ::
          ':' :: (natToChars ts ++ '}' :: r)) :=
    parseF_val_string (u + 1) s _
  have hrest := parseF_objItems_ts u ts r
  have hskip1 : ∀ X : List Char, skipWs ('"' :: X) = '"' :: X :=
    fun X => skipWs_cons_of_not_ws _ (by decide)
  have hskip2 : ∀ X : List Char, skipWs (':' :: X) = ':' :: X :=
    fun X => skipWs_cons_of_not_ws _ (by decide)
  have hskip3 : ∀ X : List Char, skipWs (',' :: X) = ',' :: X :=
    fun X => skipWs_cons_of_not_ws _ (by decide)
  rw [parseF]
  simp [hskip1, hskip2, hskip3, hkey, hval, hrest]

theorem parseF_objItems_id_text_ts (u : Nat) (sid stext : String) (ts : Nat) (r : List Char) :
    parseF (u + 4) PMode.objItems
      ('"' :: 'i' :: 'd' :: '"' :: ':' ::
        (stringifyString sid ++
          (',' :: '"' :: 't' :: 'e' :: 'x' :: 't' :: '"' :: ':' ::
            (stringifyString stext ++
              (',' :: '"' :: 't' :: 'i' :: 'm' :: 'e' :: 's' :: 't' :: 'a' :: 'm' :: 'p' ::
                '"' :: ':' :: (natToChars ts ++ '}' :: r)))))) =
      some (PRes.fields [("id", Json.str sid), ("text", Json.str stext),
        ("timestamp", Json.num (Int.ofNat ts) 0)], r) := by
  have hkey : parseJString
      ('i' :: 'd' :: '"' :: ':' ::
        (stringifyString sid ++
          (',' :: '"' :: 't' :: 'e' :: 'x' :: 't' :: '"' :: ':' ::
            (stringifyString stext ++
              (',' :: '"' :: 't' :: 'i' :: 'm' :: 'e' :: 's' :: 't' :: 'a' :: 'm' :: 'p' ::
                '"' :: ':' :: (natToChars ts ++ '}' :: r)))))) =
      some ("id".data, ':' ::
        (stringifyString sid ++
          (',' :: '"' :: 't' :: 'e' :: 'x' :: 't' :: '"' :: ':' ::
            (stringifyString stext ++
              (',' :: '"' :: 't' :: 'i' :: 'm' :: 'e' :: 's' :: 't' :: 'a' :: 'm' :: 'p' ::
                '"' :: ':' :: (natToChars ts ++ '}' :: r)))))) :=
    parseJString_escape "id" _
  have hval : parseF (u + 3) PMode.val
      (stringifyString sid ++
        (',' :: '"' :: 't' :: 'e' :: 'x' :: 't' :: '"' :: ':' ::
          (stringifyString stext ++
            (',' :: '"' :: 't' :: 'i' :: 'm' :: 'e' :: 's' :: 't' :: 'a' :: 'm' :: 'p' ::
              '"' :: ':' :: (natToChars ts ++ '}' :: r))))) =
      some (PRes.val (Json.str sid),
        ',' :: '"' :: 't' :: 'e' :: 'x' :: 't' :: '"' :: ':' ::
          (stringifyString stext ++
            (',' :: '"' :: 't' :: 'i' :: 'm' :: 'e' :: 's' :: 't' :: 'a' :: 'm' :: 'p' ::
              '"' :: ':' :: (natToChars ts ++ '}' :: r)))) :=
    parseF_val_string (u + 2) sid _
  have hrest := parseF_objItems_text_ts u stext ts r
  have hskip1 : ∀ X : List Char, skipWs ('"' :: X) = '"' :: X :=
    fun X => skipWs_cons_of_not_ws _ (by decide)
  have hskip2 : ∀ X : List Char, skipWs (':' :: X) = ':' :: X :=
    fun X => skipWs_cons_of_not_ws _ (by decide)
  have hskip3 : ∀ X : List Char, skipWs (',' :: X) = ',' :: X :=
    fun X => skipWs_cons_of_not_ws _ (by decide)
  rw [parseF]
  simp [hskip1, hskip2, hskip3, hkey, hval, hrest]

theorem stringifyMessage_append (m : Message) (r : List Char) :
    stringifyMessage m ++ r =
      '{' :: '"' :: 'i' :: 'd' :: '"' :: ':' ::
        (stringifyString m.id ++
          (',' :: '"' :: 't' :: 'e' :: 'x' :: 't' :: '"' :: ':' ::
            (stringifyString m.text ++
              (',' :: '"' :: 't' :: 'i' :: 'm' :: 'e' :: 's' :: 't' :: 'a' :: 'm' :: 'p' ::
                '"' :: ':' :: (natToChars m.timestamp ++ '}' :: r))))) := by
  simp [stringifyMessage, List.append_assoc]

theorem parseF_val_message (u : Nat) (m : Message) (r : List Char) :
    parseF (u + 5) PMode.val (stringifyMessage m ++ r) =
      some (PRes.val (encodeMessage m), r) := by
  rw [stringifyMessage_append]
  have hskip0 : ∀ X : List Char, skipWs ('{' :: X) = '{' :: X :=
    fun X => skipWs_cons_of_not_ws _ (by decide)
  have hskip1 : ∀ X : List Char, skipWs ('"' :: X) = '"' :: X :=
    fun X => skipWs_cons_of_not_ws _ (by decide)
  have hfields := parseF_objItems_id_text_ts u m.id m.text m.timestamp r
  rw [parseF]
  simp [hskip0, hskip1, hfields, encodeMessage]

/-! ## Parsing a serialized cache. -/

theorem parseF_arrItems_messages (ms : List Message) :
    ∀ (m : Message) (u : Nat) (r : List Char),
      parseF (u + 6 * ms.length + 6) PMode.arrItems
        (sepComma ((m :: ms).map stringifyMessage) ++ ']' :: r) =
      some (PRes.items ((m :: ms).map encodeMessage), r) := by
  induction ms with
  | nil =>
    intro m u r
    have hsep : sepComma ([m].map stringifyMessage) = stringifyMessage m := rfl
    have hfuel : u + 6 * ([] : List Message).length + 6 = (u + 5) + 1 := by simp
    have hval := parseF_val_message u m (']' :: r)
    have hskip : skipWs (']' :: r) = ']' :: r := skipWs_cons_of_not_ws _ (by decide)
    rw [hsep, hfuel, parseF]
    simp [hval, hskip]
  | cons m2 ms ih =>
    intro m u r
    have hsep : sepComma ((m :: m2 :: ms).map stringifyMessage) =
        stringifyMessage m ++ ',' :: sepComma ((m2 :: ms).map stringifyMessage) := rfl
    have hfuel : u + 6 * (m2 :: ms).length + 6 = (u + 6 * ms.length + 11) + 1 := by
      simp [List.length_cons]; omega
    have hval : parseF (u + 6 * ms.length + 11) PMode.val
        (stringifyMessage m ++
          ',' :: (sepComma ((m2 :: ms).map stringifyMessage) ++ ']' :: r)) =
        some (PRes.val (encodeMessage m),
          ',' :: (sepComma ((m2 :: ms).map stringifyMessage) ++ ']' :: r)) := by
      have h := parseF_val_message (u + 6 * ms.length + 6) m
        (',' :: (sepComma ((m2 :: ms).map stringifyMessage) ++ ']' :: r))
      rwa [show u + 6 * ms.length + 6 + 5 = u + 6 * ms.length + 11 from by omega] at h
    have hih : parseF (u + 6 * ms.length + 11) PMode.arrItems
        (sepComma ((m2 :: ms).map stringifyMessage) ++ ']' :: r) =
        some (PRes.items ((m2 :: ms).map encodeMessage), r) := by
      have h := ih m2 (u + 5) r
      rwa [show u + 5 + 6 * ms.length + 6 = u + 6 * ms.length + 11 from by omega] at h
    have hskip : ∀ X : List Char, skipWs (',' :: X) = ',' :: X :=
      fun X => skipWs_cons_of_not_ws _ (by decide)
    rw [hsep, hfuel, List.append_assoc, List.cons_append, parseF]
    simp only [List.map_cons] at hval hih
    simp [hval, hskip, hih]

theorem sepComma_messages_head (m : Message) (ms : List Message) :
    ∃ t : List Char, sepComma ((m :: ms).map stringifyMessage) = '{' :: t := by
  cases ms with
  | nil => exact ⟨_, rfl⟩
  | cons m2 ms => exact ⟨_, rfl⟩

theorem parseF_val_cache (c : MessageCache) (u : Nat) (r : List Char) :
    parseF (u + 6 * c.length + 7) PMode.val (stringifyCache c ++ r) =
      some (PRes.val (encodeCache c), r) := by
  cases c with
  | nil =>
    have hfuel : u + 6 * ([] : MessageCache).length + 7 = (u + 6) + 1 := by simp
    have hin : stringifyCache [] ++ r = '[' :: ']' :: r := rfl
    rw [hin, hfuel, parseF]
    have hskip : skipWs (']' :: r) = ']' :: r := skipWs_cons_of_not_ws _ (by decide)
    have hskipb : skipWs ('[' :: ']' :: r) = '[' :: ']' :: r :=
      skipWs_cons_of_not_ws _ (by decide)
    simp [hskipb, hskip, encodeCache]
  | cons m ms =>
    obtain ⟨t, ht⟩ := sepComma_messages_head m ms
    have hfuel : u + 6 * (m :: ms).length + 7 = (u + 6 * ms.length + 12) + 1 := by
      simp [List.length_cons]; omega
    have hin : stringifyCache (m :: ms) ++ r =
        '[' :: (sepComma ((m :: ms).map stringifyMessage) ++ ']' :: r) := by
      simp [stringifyCache]
    have hitems : parseF (u + 6 * ms.length + 12) PMode.arrItems
        (sepComma ((m :: ms).map stringifyMessage) ++ ']' :: r) =
        some (PRes.items ((m :: ms).map encodeMessage), r) := by
      have h := parseF_arrItems_messages ms m (u + 6) r
      rwa [show u + 6 + 6 * ms.length + 6 = u + 6 * ms.length + 12 from by omega] at h
    have hskipt : skipWs ('{' :: (t ++ ']' :: r)) = '{' :: (t ++ ']' :: r) :=
      skipWs_cons_of_not_ws _ (by decide)
    have hskipb : ∀ X : List Char, skipWs ('[' :: X) = '[' :: X :=
      fun X => skipWs_cons_of_not_ws _ (by decide)
    rw [hin, hfuel, parseF]
    rw [ht] at hitems ⊢
    simp only [List.cons_append] at hitems ⊢
    simp only [List.map_cons] at hitems
    simp [hskipb, hskipt, hitems, encodeCache]

/-! ## Fuel bounds and the round trip. -/

theorem stringifyMessage_length_ge (m : Message) : 12 ≤ (stringifyMessage m).length := by
  have h1 : ("\x7b\"id\":".data).length = 6 := rfl
  have h2 : (",\"text\":".data).length = 8 := rfl
  have h3 : (",\"timestamp\":".data).length = 13 := rfl
  have h4 := natToChars_length_pos m.timestamp
  simp only [stringifyMessage, stringifyString, List.length_append, List.length_cons,
    h1, h2, h3]
  omega

theorem sepComma_messages_length_ge (ms : List Message) :
    ∀ m : Message, 12 * (ms.length + 1) ≤ (sepComma ((m :: ms).map stringifyMessage)).length := by
  induction ms with
  | nil =>
    intro m
    have := stringifyMessage_length_ge m
    simpa [sepComma] using this
  | cons m2 ms ih =>
    intro m
    have hsep : sepComma ((m :: m2 :: ms).map stringifyMessage) =
        stringifyMessage m ++ ',' :: sepComma ((m2 :: ms).map stringifyMessage) := rfl
    have h1 := stringifyMessage_length_ge m
    have h2 := ih m2
    rw [hsep]
    simp only [List.length_append, List.length_cons, List.length_map] at h2 ⊢
    omega

theorem jsonParse_stringifyCache (c : MessageCache) :
    jsonParse (jsonStringifyCache c) = some (encodeCache c) := by
  cases c with
  | nil => rfl
  | cons m ms =>
    have hlen : 6 * (m :: ms).length + 7 ≤ (stringifyCache (m :: ms)).length + 1 := by
      have h1 := sepComma_messages_length_ge ms m
      simp only [stringifyCache, List.length_append, List.length_cons,
        List.length_map] at h1 ⊢
      omega
    obtain ⟨u, hu⟩ :
        ∃ u, (stringifyCache (m :: ms)).length + 1 = u + 6 * (m :: ms).length + 7 :=
      ⟨(stringifyCache (m :: ms)).length + 1 - (6 * (m :: ms).length + 7), by omega⟩
    have hparse := parseF_val_cache (m :: ms) u []
    rw [List.append_nil] at hparse
    have hjp : jsonParse (jsonStringifyCache (m :: ms)) =
        (match parseValueF ((stringifyCache (m :: ms)).length + 1) (stringifyCache (m :: ms)) with
         | some (v, rest) => if skipWs rest = [] then some v else none
         | none => none) := rfl
    rw [hjp, hu]
    simp only [List.length_cons] at hparse
    simp [parseValueF, hparse, skipWs]

theorem encodeMessage_injective : Function.Injective encodeMessage := by
  intro a b hab
  cases a; cases b
  simp only [encodeMessage, Json.obj.injEq, List.cons.injEq, Prod.mk.injEq,
    Json.str.injEq, Json.num.injEq, and_true, true_and] at hab
  simp only [Message.mk.injEq]
  exact ⟨hab.1, hab.2.1, Int.ofNat_inj.mp hab.2.2⟩

theorem encodeCache_injective : Function.Injective encodeCache := by
  intro c₁ c₂ h
  simp only [encodeCache, Json.arr.injEq] at h
  exact List.map_injective_iff.2 encodeMessage_injective h

/-- C5: serializing a `MessageCache` with `JSON.stringify` and parsing
the resulting string with `JSON.parse` yields exactly the JSON value
denoting the original sequence, and that denotation determines the
sequence uniquely — the round trip is the identity on well-formed
caches. -/
theorem claim_C5_roundtrip :
    (∀ c : MessageCache, jsonParse (jsonStringifyCache c) = some (encodeCache c)) ∧
    (∀ c₁ c₂ : MessageCache, encodeCache c₁ = encodeCache c₂ → c₁ = c₂) :=
  ⟨jsonParse_stringifyCache, fun _ _ h => encodeCache_injective h⟩

theorem claim_C5_roundtrip_witness :
    jsonParse (jsonStringifyCache [⟨"1642680000000", "hi there", 1642680000000⟩]) =
        some (encodeCache [⟨"1642680000000", "hi there", 1642680000000⟩]) ∧
    ([⟨"1", "a", 1⟩] : MessageCache) = [⟨"1", "a", 1⟩] :=
  ⟨claim_C5_roundtrip.1 [⟨"1642680000000", "hi there", 1642680000000⟩],
   claim_C5_roundtrip.2 [⟨"1", "a", 1⟩] [⟨"1", "a", 1⟩] rfl⟩

/-- C3: the load operation falls back to the empty cache instead of
failing: an absent store key yields the empty sequence, and a stored
string that does not parse as JSON also yields the empty sequence (the
`catch` absorbs the parse failure). -/
theorem claim_C3_load_fallback :
    loadMessagesFromStorage none = Json.arr [] ∧
    (∀ s : String, jsonParse s = none → loadMessagesFromStorage (some s) = Json.arr []) := by
  refine ⟨rfl, ?_⟩
  intro s h
  by_cases hs : s = ""
  · subst hs; rfl
  · simp [loadMessagesFromStorage, hs, h]

theorem claim_C3_load_fallback_witness :
    jsonParse "\x7bnot json" = none ∧
    loadMessagesFromStorage (some "\x7bnot json") = Json.arr [] :=
  ⟨rfl, claim_C3_load_fallback.2 "\x7bnot json" rfl⟩

/-- C9: the load operation installs the parsed stored value verbatim:
whatever `JSON.parse` returns becomes the in-memory cache, with no
truncation to `MAX_MESSAGES` (a stored array of 7 elements loads with
length 7) and no schema validation (a stored array of bare numbers, or
even the non-array `true`, is accepted as-is). -/
theorem claim_C9_load_verbatim :
    (∀ (s : String) (v : Json), jsonParse s = some v →
        loadMessagesFromStorage (some s) = v) ∧
    loadMessagesFromStorage (some "[1,2,3,4,5,6,7]") =
      Json.arr [Json.num 1 0, Json.num 2 0, Json.num 3 0, Json.num 4 0, Json.num 5 0,
        Json.num 6 0, Json.num 7 0] ∧
    MAX_MESSAGES <
      ([Json.num 1 0, Json.num 2 0, Json.num 3 0, Json.num 4 0, Json.num 5 0,
        Json.num 6 0, Json.num 7 0] : List Json).length ∧
    loadMessagesFromStorage (some "true") = Json.bool true := by
  refine ⟨?_, rfl, by simp [MAX_MESSAGES], rfl⟩
  intro s v h
  have hs : s ≠ "" := by
    intro he
    subst he
    rw [show jsonParse "" = none from rfl] at h
    exact Option.noConfusion h
  simp [loadMessagesFromStorage, hs, h]

theorem claim_C9_load_verbatim_witness :
    jsonParse "null" = some Json.null ∧
    loadMessagesFromStorage (some "null") = Json.null :=
  ⟨rfl, claim_C9_load_verbatim.1 "null" Json.null rfl⟩

end MessageCacheApp
